import Mathlib

/-!
Verification development for the personal-data-platform repository.

Each Python function relevant to the checked claims is shallowly embedded
as an executable Lean definition; theorems about those definitions settle
the claims.  Python exceptions are modelled with `Option`/`Except`, the
recursion stack with an explicit fuel argument, and the filesystem with
association lists from path strings to contents.
-/

namespace PDP

/-! ## DAG executor (src/pipeline/dag_executor.py)

`topo_sort(dag)` performs a depth-first search over
`dag[stage]["depends_on"]`.  The DAG literal is an insertion-ordered
mapping, embedded as a list of `(name, depends_on)` pairs. -/

/-- A DAG literal: insertion-ordered mapping from stage name to its
`depends_on` list (the only field `topo_sort` reads). -/
abbrev Dag := List (String × List String)

/-- `dag[target]["depends_on"]`; `none` models the `KeyError` raised for a
dependency name missing from the DAG. -/
def lookupDeps (dag : Dag) (k : String) : Option (List String) :=
  (dag.find? (fun p => p.1 == k)).map (fun p => p.2)

/-- The `(visited, order)` state threaded through `visit`. -/
abbrev VisitSt := List String × List String

/-- A `for x in xs: f(x)` loop over an option-valued body, threading the
`(visited, order)` state left to right and propagating failure. -/
def foldVisit (f : String → VisitSt → Option VisitSt) :
    List String → VisitSt → Option VisitSt
  | [], st => some st
  | d :: ds, st =>
    match f d st with
    | none => none
    | some st2 => foldVisit f ds st2

/-- One stack frame of the inner `visit` closure of `topo_sort`.  The state
is the pair `(visited, order)`.  `fuel` is the remaining recursion-stack
budget: Python raises `RecursionError` when the interpreter stack is
exhausted, which the embedding models as `none` at fuel `0`.  `none` also
models the `KeyError` for a missing dependency.  The loop over
`dag[target]["depends_on"]` runs each `visit(dep)` one stack frame deeper,
hence at fuel `fuel`. -/
def visit (dag : Dag) : Nat → String → VisitSt → Option VisitSt
  | 0, _, _ => none
  | fuel + 1, t, st =>
    if st.1.contains t then some st
    else
      match lookupDeps dag t with
      | none => none
      | some deps =>
        match foldVisit (fun d st1 => visit dag fuel d st1) deps st with
        | none => none
        | some st2 => some (t :: st2.1, st2.2 ++ [t])

/-- `topo_sort`: run `visit` on every key in insertion order and return the
accumulated `order` list.  Each top-level `visit` call starts with the full
recursion budget `fuel`, exactly as each iteration of the Python `for`
loop starts at interpreter stack depth 1. -/
def topo_sort (dag : Dag) (fuel : Nat) : Option (List String) :=
  match foldVisit (fun n st => visit dag fuel n st) (dag.map (fun p => p.1)) ([], []) with
  | none => none
  | some st => some st.2

/-- The 4-node diamond from the spec and `test_topo_sort_branching`. -/
def diamondDag : Dag :=
  [("A", []), ("B", ["A"]), ("C", ["A"]), ("D", ["B", "C"])]

/-- The 2-cycle from the spec and `test_topo_sort_cycle`. -/
def twoCycleDag : Dag := [("A", ["B"]), ("B", ["A"])]

example : topo_sort diamondDag 10 = some ["A", "B", "C", "D"] := by decide

example : topo_sort twoCycleDag 10 = none := by decide

/-- On the 2-cycle, `visit` from the empty state fails for every recursion
budget: the DFS alternates between `A` and `B` without ever completing a
frame, so only the fuel-0 (`RecursionError`) exit is reachable. -/
lemma visit_twoCycle_none (fuel : Nat) :
    visit twoCycleDag fuel "A" ([], []) = none ∧
      visit twoCycleDag fuel "B" ([], []) = none := by
  induction fuel with
  | zero => exact ⟨rfl, rfl⟩
  | succ n ih =>
    obtain ⟨ihA, ihB⟩ := ih
    simp only [twoCycleDag] at ihA ihB ⊢
    constructor
    · simp [visit, foldVisit, lookupDeps, ihB]
    · simp [visit, foldVisit, lookupDeps, ihA]

/-- `topo_sort` on the 2-cycle fails for every recursion budget. -/
lemma topo_sort_twoCycle_none (fuel : Nat) :
    topo_sort twoCycleDag fuel = none := by
  have h := (visit_twoCycle_none fuel).1
  simp only [twoCycleDag] at h
  simp [topo_sort, twoCycleDag, foldVisit, h]

/-- Every `depends_on` entry names a stage present in the DAG. -/
def ClosedDeps (dag : Dag) : Prop :=
  ∀ p ∈ dag, ∀ d ∈ p.2, (lookupDeps dag d).isSome

/-- `rank` decreases along dependency edges; the existence of such a
function is equivalent to acyclicity for a finite dependency graph. -/
def Ranked (dag : Dag) (rank : String → Nat) : Prop :=
  ∀ p ∈ dag, ∀ d ∈ p.2, rank d < rank p.1

/-- Acyclicity, witnessed by a rank function. -/
def Acyclic (dag : Dag) : Prop := ∃ rank, Ranked dag rank

/-- An order is topologically valid: every dependency of the stage at
position `i` already occurs at some position `j < i`. -/
def ValidTopoOrder (dag : Dag) (order : List String) : Prop :=
  ∀ i, i < order.length → ∀ deps, lookupDeps dag (order.getD i "") = some deps →
    ∀ d ∈ deps, ∃ j, j < i ∧ order.getD j "" = d

lemma lookupDeps_mem {dag : Dag} {k : String} {deps : List String}
    (h : lookupDeps dag k = some deps) : (k, deps) ∈ dag := by
  unfold lookupDeps at h
  cases hf : dag.find? (fun p => p.1 == k) with
  | none => rw [hf] at h; simp at h
  | some q =>
    rw [hf] at h
    simp only [Option.map_some'] at h
    have hq : q ∈ dag := List.mem_of_find?_eq_some hf
    have hk : q.1 = k := by simpa using List.find?_some hf
    have : q = (k, deps) := by
      cases q
      simp only at hk
      simp only [Option.some.injEq] at h
      simp [hk, ← h]
    rwa [this] at hq

/-- The invariant maintained by `visit`: visited and order hold the same
names, and the order built so far is topologically valid. -/
def GoodSt (dag : Dag) (st : VisitSt) : Prop :=
  (∀ x, x ∈ st.1 ↔ x ∈ st.2) ∧ ValidTopoOrder dag st.2

lemma foldVisit_good (dag : Dag) (f : String → VisitSt → Option VisitSt)
    (hf : ∀ t st st', f t st = some st' → GoodSt dag st →
      GoodSt dag st' ∧ (∃ ext, st'.2 = st.2 ++ ext) ∧ t ∈ st'.1) :
    ∀ ds st st', foldVisit f ds st = some st' → GoodSt dag st →
      GoodSt dag st' ∧ (∃ ext, st'.2 = st.2 ++ ext) ∧ ∀ d ∈ ds, d ∈ st'.1 := by
  intro ds
  induction ds with
  | nil =>
    intro st st' h hg
    simp only [foldVisit, Option.some.injEq] at h
    subst h
    exact ⟨hg, ⟨[], by simp⟩, by simp⟩
  | cons d ds ih =>
    intro st st' h hg
    simp only [foldVisit] at h
    cases h1 : f d st with
    | none => rw [h1] at h; simp at h
    | some st1 =>
      rw [h1] at h
      obtain ⟨hg1, ⟨e1, he1⟩, hd1⟩ := hf d st st1 h1 hg
      obtain ⟨hg2, ⟨e2, he2⟩, hds⟩ := ih st1 st' h hg1
      refine ⟨hg2, ⟨e1 ++ e2, by rw [he2, he1, List.append_assoc]⟩, ?_⟩
      intro x hx
      rcases List.mem_cons.mp hx with hx | hx
      · subst hx
        have : x ∈ st1.2 := (hg1.1 x).mp hd1
        exact (hg2.1 x).mpr (by rw [he2]; exact List.mem_append_left _ this)
      · exact hds x hx

lemma visit_good (dag : Dag) :
    ∀ fuel t st st', visit dag fuel t st = some st' → GoodSt dag st →
      GoodSt dag st' ∧ (∃ ext, st'.2 = st.2 ++ ext) ∧ t ∈ st'.1 := by
  intro fuel
  induction fuel with
  | zero => intro t st st' h; simp [visit] at h
  | succ n ih =>
    intro t st st' h hg
    simp only [visit] at h
    by_cases hc : st.1.contains t
    · rw [if_pos hc] at h
      simp only [Option.some.injEq] at h
      subst h
      exact ⟨hg, ⟨[], by simp⟩, by simpa using hc⟩
    · rw [if_neg hc] at h
      cases hl : lookupDeps dag t with
      | none => rw [hl] at h; simp at h
      | some deps =>
        rw [hl] at h
        dsimp only at h
        cases hfv : foldVisit (fun d st1 => visit dag n d st1) deps st with
        | none => rw [hfv] at h; simp at h
        | some st2 =>
          rw [hfv] at h
          simp only [Option.some.injEq] at h
          obtain ⟨hg2, ⟨ext, hext⟩, hds⟩ :=
            foldVisit_good dag _ ih deps st st2 hfv hg
          have hiff : ∀ x, x ∈ t :: st2.1 ↔ x ∈ st2.2 ++ [t] := by
            intro x
            constructor
            · intro hx
              rcases List.mem_cons.mp hx with hx | hx
              · subst hx; exact List.mem_append_right _ (by simp)
              · exact List.mem_append_left _ ((hg2.1 x).mp hx)
            · intro hx
              rcases List.mem_append.mp hx with hx | hx
              · exact List.mem_cons_of_mem _ ((hg2.1 x).mpr hx)
              · have hxt : x = t := by simpa using hx
                subst hxt; exact List.mem_cons_self _ _
          have hvalid : ValidTopoOrder dag (st2.2 ++ [t]) := by
            intro i hi deps2 hl2 d hd
            rw [List.length_append, List.length_singleton] at hi
            by_cases hilt : i < st2.2.length
            · rw [List.getD_append _ _ _ _ hilt] at hl2
              obtain ⟨j, hj, hjd⟩ := hg2.2 i hilt deps2 hl2 d hd
              exact ⟨j, hj, by rw [List.getD_append _ _ _ _ (lt_trans hj hilt)]; exact hjd⟩
            · have hieq : i = st2.2.length := by omega
              have : (st2.2 ++ [t]).getD i "" = t := by
                rw [hieq, List.getD_append_right _ _ _ _ (le_refl _)]
                simp
              rw [this] at hl2
              rw [hl] at hl2
              injection hl2 with hdeq
              subst hdeq
              have hdin : d ∈ st2.2 := (hg2.1 d).mp (hds d hd)
              obtain ⟨j, hjlen, hjval⟩ := List.mem_iff_getElem.mp hdin
              refine ⟨j, by omega, ?_⟩
              rw [List.getD_append _ _ _ _ hjlen, List.getD_eq_getElem _ _ hjlen]
              exact hjval
          subst h
          exact ⟨⟨hiff, hvalid⟩,
            ⟨ext ++ [t], by simp only [hext, List.append_assoc]⟩,
            List.mem_cons_self t _⟩

lemma foldVisit_total (f : String → VisitSt → Option VisitSt)
    (P : String → Prop) (hf : ∀ t st, P t → (f t st).isSome) :
    ∀ ds st, (∀ d ∈ ds, P d) → (foldVisit f ds st).isSome := by
  intro ds
  induction ds with
  | nil => intro st _; simp [foldVisit]
  | cons d ds ih =>
    intro st hP
    obtain ⟨st1, h1⟩ := Option.isSome_iff_exists.mp (hf d st (hP d (by simp)))
    simp only [foldVisit, h1]
    exact ih st1 (fun x hx => hP x (by simp [hx]))

lemma visit_total (dag : Dag) (rank : String → Nat)
    (hr : Ranked dag rank) (hcl : ClosedDeps dag) :
    ∀ fuel t st, (lookupDeps dag t).isSome → rank t < fuel →
      (visit dag fuel t st).isSome := by
  intro fuel
  induction fuel with
  | zero => intro t st _ hrt; omega
  | succ n ih =>
    intro t st hsome hrt
    simp only [visit]
    by_cases hc : st.1.contains t
    · have hc2 : t ∈ st.1 := by simpa using hc
      simp [hc2]
    · rw [if_neg hc]
      obtain ⟨deps, hl⟩ := Option.isSome_iff_exists.mp hsome
      have hmem : (t, deps) ∈ dag := lookupDeps_mem hl
      rw [hl]
      dsimp only
      have hfv : (foldVisit (fun d st1 => visit dag n d st1) deps st).isSome := by
        apply foldVisit_total _ (fun d => (lookupDeps dag d).isSome ∧ rank d < n)
        · intro u st2 hu
          exact ih u st2 hu.1 hu.2
        · intro d hd
          refine ⟨hcl (t, deps) hmem d hd, ?_⟩
          have hlt : rank d < rank t := by simpa using hr (t, deps) hmem d hd
          omega
      obtain ⟨st2, h2⟩ := Option.isSome_iff_exists.mp hfv
      simp [h2]

lemma exists_rank_bound (rank : String → Nat) :
    ∀ l : List String, ∃ n, ∀ k ∈ l, rank k < n := by
  intro l
  induction l with
  | nil => exact ⟨1, by simp⟩
  | cons k l ih =>
    obtain ⟨m, hm⟩ := ih
    refine ⟨max (rank k + 1) m, ?_⟩
    intro x hx
    rcases List.mem_cons.mp hx with hx | hx
    · subst hx; omega
    · have := hm x hx; omega

/-- C2 counterexample: `topo_sort` on the 2-cycle (A depends on B, B
depends on A) does not reject it with a distinct `CycleError` — no such
error exists in `dag_executor.py`.  Even with a recursion budget of 1000
frames (Python's default recursion limit) the DFS has not completed and
the only reachable outcome is the stack-exhaustion failure
(`RecursionError`), which the code's own docstring and
`test_topo_sort_cycle` document. -/
theorem C2_counterexample : topo_sort twoCycleDag 1000 = none :=
  topo_sort_twoCycle_none 1000

/-- C2 (amended): on a 2-cycle `topo_sort` recurses unboundedly — for
every recursion budget the DFS fails with the stack-exhaustion outcome,
which Python surfaces as `RecursionError`, not as a distinct
`CycleError`. -/
theorem C2_cycle_recursion_error (fuel : Nat) :
    topo_sort twoCycleDag fuel = none :=
  topo_sort_twoCycle_none fuel

lemma mem_keys_isSome (dag : Dag) (k : String)
    (h : k ∈ dag.map (fun p => p.1)) : (lookupDeps dag k).isSome := by
  obtain ⟨p, hp, hpk⟩ := List.mem_map.mp h
  unfold lookupDeps
  cases hf : dag.find? (fun q => q.1 == k) with
  | some q => simp
  | none =>
    exfalso
    have hs : (dag.find? (fun q => q.1 == k)).isSome := by
      rw [List.find?_isSome]
      exact ⟨p, hp, by simp [hpk]⟩
    rw [hf] at hs
    simp at hs

/-- C3: for every acyclic DAG whose `depends_on` entries all name stages
present in the DAG, `topo_sort` (with a sufficient recursion budget)
returns an order in which no stage appears before any of its
`depends_on`; for the 4-node diamond, A is first, D is last, and B and C
occupy the middle positions. -/
theorem C3_topo_sort_acyclic_valid (dag : Dag)
    (hac : Acyclic dag) (hcl : ClosedDeps dag) :
    (∃ fuel order, topo_sort dag fuel = some order ∧ ValidTopoOrder dag order) ∧
      (∃ order, topo_sort diamondDag 10 = some order ∧
        order.length = 4 ∧ order.getD 0 "" = "A" ∧ order.getD 3 "" = "D" ∧
        ((order.getD 1 "" = "B" ∧ order.getD 2 "" = "C") ∨
          (order.getD 1 "" = "C" ∧ order.getD 2 "" = "B"))) := by
  constructor
  · obtain ⟨rank, hr⟩ := hac
    obtain ⟨fuel, hfuel⟩ := exists_rank_bound rank (dag.map (fun p => p.1))
    have htot : (foldVisit (fun n st => visit dag fuel n st)
        (dag.map (fun p => p.1)) ([], [])).isSome := by
      apply foldVisit_total _ (fun k => k ∈ dag.map (fun p => p.1))
      · intro t st ht
        exact visit_total dag rank hr hcl fuel t st (mem_keys_isSome dag t ht) (hfuel t ht)
      · intro d hd
        exact hd
    obtain ⟨st, hst⟩ := Option.isSome_iff_exists.mp htot
    have hgood := foldVisit_good dag _ (visit_good dag fuel) _ _ _ hst
      ⟨fun x => by simp, fun i hi => absurd hi (by simp)⟩
    refine ⟨fuel, st.2, ?_, hgood.1.2⟩
    simp [topo_sort, hst]
  · exact ⟨["A", "B", "C", "D"], by decide, rfl, rfl, rfl, Or.inl ⟨rfl, rfl⟩⟩

/-- Witness for C3: the diamond DAG is acyclic with closed dependencies,
and the theorem applies to it. -/
theorem C3_witness :
    Acyclic diamondDag ∧ ClosedDeps diamondDag ∧
      ∃ fuel order, topo_sort diamondDag fuel = some order ∧
        ValidTopoOrder diamondDag order := by
  have hac : Acyclic diamondDag :=
    ⟨fun s => if s == "A" then 0 else if s == "D" then 2 else 1,
      by unfold Ranked; decide⟩
  have hcl : ClosedDeps diamondDag := by unfold ClosedDeps; decide
  exact ⟨hac, hcl, (C3_topo_sort_acyclic_valid diamondDag hac hcl).1⟩

/-! ## Run-state store (src/pipeline/pipeline_state.py)

`PipelineState` keeps a JSON document `{"stages": {...}}` and persists it
with a write-temp-then-rename `_save` after every mutation.  Python dicts
are embedded as insertion-ordered association lists; the filesystem as an
association list from path to file content. -/

def STATUS_PENDING : String := "pending"
def STATUS_RUNNING : String := "running"
def STATUS_PASSED : String := "passed"
def STATUS_FAILED : String := "failed"

/-- `m[k] = v` on an insertion-ordered dict: replace in place or append. -/
def dictSet {α : Type} : List (String × α) → String → α → List (String × α)
  | [], k, v => [(k, v)]
  | (k0, v0) :: rest, k, v =>
    if k0 == k then (k0, v) :: rest else (k0, v0) :: dictSet rest k v

/-- `m.get(k)` on a dict. -/
def dictGet {α : Type} (m : List (String × α)) (k : String) : Option α :=
  (m.find? (fun p => p.1 == k)).map (fun p => p.2)

/-- Deleting a key from a dict (used for the rename source). -/
def dictRemove {α : Type} (m : List (String × α)) (k : String) :
    List (String × α) :=
  m.filter (fun p => !(p.1 == k))

/-- One `self.state["stages"][stage]` payload.  The three mutators write
exactly these fields (absent optional fields are `none`). -/
structure StageEntry where
  status : String
  timestamp : String
  gate_passed : Option Bool := none
  rows : Option Int := none
  sources : Option (List (String × Int)) := none
  error : Option String := none
deriving DecidableEq

/-- The `"stages"` sub-document of the pipeline-state JSON document. -/
abbrev StateDoc := List (String × StageEntry)

/-- `get_status`: `self.state["stages"].get(stage, {}).get("status", STATUS_PENDING)`. -/
def get_status (doc : StateDoc) (stage : String) : String :=
  match dictGet doc stage with
  | some e => e.status
  | none => STATUS_PENDING

/-- `is_done`: status equals `passed`. -/
def is_done (doc : StateDoc) (stage : String) : Bool :=
  get_status doc stage == STATUS_PASSED

/-- `is_failed`: status equals `failed`. -/
def is_failed (doc : StateDoc) (stage : String) : Bool :=
  get_status doc stage == STATUS_FAILED

/-- `can_run`: status is `pending` or `failed`. -/
def can_run (doc : StateDoc) (stage : String) : Bool :=
  get_status doc stage == STATUS_PENDING || get_status doc stage == STATUS_FAILED

/-- In-memory effect of `mark_running`. -/
def mark_running (doc : StateDoc) (stage ts : String) : StateDoc :=
  dictSet doc stage { status := STATUS_RUNNING, timestamp := ts }

/-- In-memory effect of `mark_passed` (optional `rows`/`sources` keys are
only present when passed). -/
def mark_passed (doc : StateDoc) (stage ts : String) (rows : Option Int)
    (sources : Option (List (String × Int))) (gate : Bool) : StateDoc :=
  dictSet doc stage
    { status := STATUS_PASSED, timestamp := ts, gate_passed := some gate,
      rows := rows, sources := sources }

/-- In-memory effect of `mark_failed`. -/
def mark_failed (doc : StateDoc) (stage ts err : String) : StateDoc :=
  dictSet doc stage
    { status := STATUS_FAILED, timestamp := ts, error := some err }

/-- `Path.with_suffix`: replace the (single, dot-introduced) suffix of the
final path component, or append when there is none.  Traverses the path
reversed; a dot found before any slash marks the suffix start. -/
def dropSuffixRevAux : List Char → Option (List Char)
  | [] => none
  | c :: rest =>
    if c == '/' then none
    else if c == '.' then
      if rest.isEmpty || rest.head? == some '/' then none else some rest
    else dropSuffixRevAux rest

/-- `Path.with_suffix(suffix)` on a path string. -/
def withSuffix (p : String) (suffix : String) : String :=
  match dropSuffixRevAux p.toList.reverse with
  | some rest => String.mk rest.reverse ++ suffix
  | none => p ++ suffix

/-- The filesystem: path to file content. -/
abbrev FS := List (String × String)

/-- `_save` as the sequence of filesystem snapshots it produces: the
original state, the state after `tmp.write_text(...)`, and the state
after the atomic `tmp.replace(self.state_path)`. -/
def saveTrace (fs : FS) (statePath content : String) : List FS :=
  let tmp := withSuffix statePath ".json.tmp"
  let fs1 := dictSet fs tmp content
  let fs2 := dictSet (dictRemove fs1 tmp) statePath content
  [fs, fs1, fs2]

/-- Rendering of a JSON string value (models `json.dumps` structurally;
byte-level formatting such as `indent=4` is immaterial here). -/
def jsonField (k v : String) : String := "\"" ++ k ++ "\": " ++ v

/-- Rendering of one stage payload, fields in insertion order. -/
def serializeEntry (e : StageEntry) : String :=
  let base := [jsonField "status" ("\"" ++ e.status ++ "\""),
    jsonField "timestamp" ("\"" ++ e.timestamp ++ "\"")]
  let base := base ++ (match e.gate_passed with
    | some b => [jsonField "gate_passed" (if b then "true" else "false")]
    | none => [])
  let base := base ++ (match e.rows with
    | some r => [jsonField "rows" (toString r)]
    | none => [])
  let base := base ++ (match e.sources with
    | some srcs => [jsonField "sources" ("\x7b" ++
        String.intercalate ", "
          (srcs.map (fun p => jsonField p.1 (toString p.2))) ++ "\x7d")]
    | none => [])
  let base := base ++ (match e.error with
    | some err => [jsonField "error" ("\"" ++ err ++ "\"")]
    | none => [])
  "\x7b" ++ String.intercalate ", " base ++ "\x7d"

/-- Rendering of the full state document `{"stages": {...}}`. -/
def serializeState (doc : StateDoc) : String :=
  "\x7b\"stages\": \x7b" ++
    String.intercalate ", "
      (doc.map (fun p => jsonField p.1 (serializeEntry p.2))) ++
    "\x7d\x7d"

/-- `mark_running` followed by `_save`: new document plus the filesystem
snapshots `_save` steps through. -/
def markRunningOp (doc : StateDoc) (fs : FS) (statePath stage ts : String) :
    StateDoc × List FS :=
  let doc2 := mark_running doc stage ts
  (doc2, saveTrace fs statePath (serializeState doc2))

/-- `mark_passed` followed by `_save`. -/
def markPassedOp (doc : StateDoc) (fs : FS) (statePath stage ts : String)
    (rows : Option Int) (sources : Option (List (String × Int)))
    (gate : Bool) : StateDoc × List FS :=
  let doc2 := mark_passed doc stage ts rows sources gate
  (doc2, saveTrace fs statePath (serializeState doc2))

/-- `mark_failed` followed by `_save`. -/
def markFailedOp (doc : StateDoc) (fs : FS) (statePath stage ts err : String) :
    StateDoc × List FS :=
  let doc2 := mark_failed doc stage ts err
  (doc2, saveTrace fs statePath (serializeState doc2))

lemma dictGet_cons {α : Type} (k0 : String) (v0 : α)
    (rest : List (String × α)) (k : String) :
    dictGet ((k0, v0) :: rest) k =
      if k0 = k then some v0 else dictGet rest k := by
  by_cases h : k0 = k
  · subst h
    simp [dictGet, List.find?]
  · have hb : (k0 == k) = false := by simpa using h
    simp [dictGet, List.find?, hb, h]

lemma dictSet_cons {α : Type} (k0 : String) (v0 : α)
    (rest : List (String × α)) (k : String) (v : α) :
    dictSet ((k0, v0) :: rest) k v =
      if k0 = k then (k0, v) :: rest else (k0, v0) :: dictSet rest k v := by
  by_cases h : k0 = k
  · have hb : (k0 == k) = true := by simpa using h
    simp [dictSet, hb, h]
  · have hb : (k0 == k) = false := by simpa using h
    simp [dictSet, hb, h]

lemma dictRemove_cons {α : Type} (k0 : String) (v0 : α)
    (rest : List (String × α)) (k : String) :
    dictRemove ((k0, v0) :: rest) k =
      if k0 = k then dictRemove rest k else (k0, v0) :: dictRemove rest k := by
  by_cases h : k0 = k
  · have hb : (k0 == k) = true := by simpa using h
    simp [dictRemove, List.filter, hb, h]
  · have hb : (k0 == k) = false := by simpa using h
    simp [dictRemove, List.filter, hb, h]

lemma dictGet_set_self {α : Type} (m : List (String × α)) (k : String) (v : α) :
    dictGet (dictSet m k v) k = some v := by
  induction m with
  | nil => simp [dictSet, dictGet, List.find?]
  | cons p rest ih =>
    obtain ⟨k0, v0⟩ := p
    rw [dictSet_cons]
    by_cases h : k0 = k
    · rw [if_pos h, dictGet_cons, if_pos h]
    · rw [if_neg h, dictGet_cons, if_neg h]
      exact ih

lemma dictGet_set_ne {α : Type} (m : List (String × α)) (k k2 : String) (v : α)
    (h : k2 ≠ k) : dictGet (dictSet m k2 v) k = dictGet m k := by
  induction m with
  | nil =>
    simp only [dictSet]
    rw [dictGet_cons, if_neg h]
  | cons p rest ih =>
    obtain ⟨k0, v0⟩ := p
    rw [dictSet_cons]
    by_cases hk : k0 = k2
    · subst hk
      rw [if_pos rfl, dictGet_cons, dictGet_cons]
      rw [if_neg (by exact fun hc => h hc), if_neg (by exact fun hc => h hc)]
    · rw [if_neg hk, dictGet_cons, dictGet_cons]
      by_cases hk0 : k0 = k
      · rw [if_pos hk0, if_pos hk0]
      · rw [if_neg hk0, if_neg hk0]
        exact ih

lemma dictGet_remove_ne {α : Type} (m : List (String × α)) (k k2 : String)
    (h : k2 ≠ k) : dictGet (dictRemove m k2) k = dictGet m k := by
  induction m with
  | nil => simp [dictRemove, dictGet]
  | cons p rest ih =>
    obtain ⟨k0, v0⟩ := p
    rw [dictRemove_cons]
    by_cases hk : k0 = k2
    · subst hk
      rw [if_pos rfl, dictGet_cons, if_neg (fun hc => h hc)]
      exact ih
    · rw [if_neg hk, dictGet_cons, dictGet_cons]
      by_cases hk0 : k0 = k
      · rw [if_pos hk0, if_pos hk0]
      · rw [if_neg hk0, if_neg hk0]
        exact ih

/-- Along a `_save`, the state file maps either to its previous content or
to the freshly written document — never to anything else. -/
lemma saveTrace_ok (fs : FS) (statePath content : String)
    (htmp : withSuffix statePath ".json.tmp" ≠ statePath) :
    ∀ fs2 ∈ saveTrace fs statePath content,
      dictGet fs2 statePath = dictGet fs statePath ∨
        dictGet fs2 statePath = some content := by
  intro fs2 hmem
  simp only [saveTrace, List.mem_cons, List.not_mem_nil, or_false] at hmem
  rcases hmem with h | h | h
  · subst h; exact Or.inl rfl
  · subst h
    exact Or.inl (dictGet_set_ne _ _ _ _ htmp)
  · subst h
    exact Or.inr (dictGet_set_self _ _ _)

/-- C4: each of `mark_running`, `mark_passed` and `mark_failed`
re-serializes the full state document and persists it by writing a
sibling temp file and atomically replacing the state path, so every
intermediate filesystem snapshot maps the state path either to its
previous content or to the new serialized document — never to a
half-written fragment. -/
theorem C4_atomic_state_persistence (doc : StateDoc) (fs : FS)
    (statePath stage ts err : String) (rows : Option Int)
    (sources : Option (List (String × Int))) (gate : Bool)
    (htmp : withSuffix statePath ".json.tmp" ≠ statePath) :
    (∀ fs2 ∈ (markRunningOp doc fs statePath stage ts).2,
      dictGet fs2 statePath = dictGet fs statePath ∨
        dictGet fs2 statePath =
          some (serializeState (markRunningOp doc fs statePath stage ts).1)) ∧
    (∀ fs2 ∈ (markPassedOp doc fs statePath stage ts rows sources gate).2,
      dictGet fs2 statePath = dictGet fs statePath ∨
        dictGet fs2 statePath =
          some (serializeState
            (markPassedOp doc fs statePath stage ts rows sources gate).1)) ∧
    (∀ fs2 ∈ (markFailedOp doc fs statePath stage ts err).2,
      dictGet fs2 statePath = dictGet fs statePath ∨
        dictGet fs2 statePath =
          some (serializeState (markFailedOp doc fs statePath stage ts err).1)) :=
  ⟨saveTrace_ok fs statePath _ htmp, saveTrace_ok fs statePath _ htmp,
    saveTrace_ok fs statePath _ htmp⟩

/-- Witness for C4 at a concrete state path and `mark_running` call. -/
theorem C4_witness :
    withSuffix "data/state/pipeline_state.json" ".json.tmp" ≠
        "data/state/pipeline_state.json" ∧
      ∀ fs2 ∈ (markRunningOp [] [] "data/state/pipeline_state.json"
          "ingestion" "2026-01-01T00:00:00+00:00").2,
        dictGet fs2 "data/state/pipeline_state.json" =
            dictGet ([] : FS) "data/state/pipeline_state.json" ∨
          dictGet fs2 "data/state/pipeline_state.json" =
            some (serializeState (markRunningOp [] []
              "data/state/pipeline_state.json" "ingestion"
              "2026-01-01T00:00:00+00:00").1) := by
  have htmp : withSuffix "data/state/pipeline_state.json" ".json.tmp" ≠
      "data/state/pipeline_state.json" := by decide
  exact ⟨htmp,
    (C4_atomic_state_persistence [] [] "data/state/pipeline_state.json"
      "ingestion" "2026-01-01T00:00:00+00:00" "" none none true htmp).1⟩

/-- C10: a stage with no recorded entry reports `pending`, is neither done
nor failed, and is eligible to run; the query API is total on unknown
stage names. -/
theorem C10_unknown_stage_defaults (doc : StateDoc) (stage : String)
    (h : dictGet doc stage = none) :
    get_status doc stage = STATUS_PENDING ∧ is_done doc stage = false ∧
      is_failed doc stage = false ∧ can_run doc stage = true := by
  have hs : get_status doc stage = STATUS_PENDING := by
    simp [get_status, h]
  refine ⟨hs, ?_, ?_, ?_⟩
  · rw [is_done, hs]; rfl
  · rw [is_failed, hs]; rfl
  · rw [can_run, hs]; rfl

/-- Witness for C10 on the empty state document. -/
theorem C10_witness :
    dictGet ([] : StateDoc) "merge" = none ∧
      get_status [] "merge" = STATUS_PENDING ∧ is_done [] "merge" = false ∧
        is_failed [] "merge" = false ∧ can_run [] "merge" = true :=
  ⟨rfl, C10_unknown_stage_defaults [] "merge" rfl⟩

/-! ## Hash engine (src/pipeline/hash_utils.py)

SHA-256 itself is abstracted as a deterministic digest parameter
`sha : String → String`; what the embedding keeps concrete is exactly the
byte stream each function feeds to the digest, which is what the hashing
claims are about.  UTF-8 encoding is a homomorphism for concatenation, so
string concatenation models byte-stream concatenation faithfully. -/

/-- `hash_file`: digest of the file's content (the chunked reads feed the
whole content, in order, to one digest).  A missing file raises
`FileNotFoundError` from `open`, modelled as `.error`; nothing catches
it. -/
def hash_file (sha : String → String) (files : FS) (path : String) :
    Except String String :=
  match dictGet files path with
  | none => Except.error ("FileNotFoundError: " ++ path)
  | some content => Except.ok ("sha256:" ++ sha content)

/-- The exact stream `hash_strings` feeds to its digest: the values
concatenated in order, with no separator between elements
(`sha.update(v.encode("utf-8"))` in a plain loop). -/
def hashStringsInput (values : List String) : String :=
  String.join values

/-- `hash_strings`: digest of the concatenated stream. -/
def hash_strings (sha : String → String) (values : List String) : String :=
  "sha256:" ++ sha (hashStringsInput values)

/-- C8 counterexample: `["a", "aa"]` and `["aa", "a"]` are two distinct
orderings of the same multiset, yet `hash_strings` feeds the digest the
identical byte stream `"aaa"` for both, so the digests are equal for
every digest function — the separator the claim describes does not
exist. -/
theorem C8_counterexample :
    (["a", "aa"] ≠ ["aa", "a"]) ∧
      hashStringsInput ["a", "aa"] = hashStringsInput ["aa", "a"] ∧
      hash_strings (fun s => s) ["a", "aa"] =
        hash_strings (fun s => s) ["aa", "a"] :=
  ⟨by decide, rfl, rfl⟩

/-- C8 (amended): `hash_strings` encodes elements with no separator, so
its digest depends only on the concatenation of the elements; any two
lists whose elements concatenate to the same byte sequence — including
distinct permutations of one multiset — share a digest. -/
theorem C8_no_separator (sha : String → String) (l1 l2 : List String)
    (h : hashStringsInput l1 = hashStringsInput l2) :
    hash_strings sha l1 = hash_strings sha l2 := by
  simp [hash_strings, h]

/-- Witness for C8 on a concrete colliding pair. -/
theorem C8_witness :
    hashStringsInput ["raw", "data"] = hashStringsInput ["rawd", "ata"] ∧
      hash_strings (fun s => s) ["raw", "data"] =
        hash_strings (fun s => s) ["rawd", "ata"] :=
  ⟨rfl, C8_no_separator (fun s => s) ["raw", "data"] ["rawd", "ata"] rfl⟩

/-! ## Cache-key computation (src/pipeline/orchestrator.py, get_input_hash)

`get_input_hash` resolves each consumed key to config paths, hashes the
paths that exist as files, hashes the sorted `*.csv` glob of the paths
that exist as directories, and silently contributes nothing for paths
that exist as neither.  The filesystem is a pair of dicts: file path to
content, and directory path to directory listing. -/

structure FSys where
  files : FS
  dirs : List (String × List String)

/-- One `path_map` entry: hash `p` if it is a file; if it is a directory,
hash every `*.csv` inside, sorted by name; otherwise contribute
nothing. -/
def hashPath (sha : String → String) (fsys : FSys) (p : String) :
    Except String (List String) :=
  if (dictGet fsys.files p).isSome then do
    let h ← hash_file sha fsys.files p
    pure [h]
  else
    match dictGet fsys.dirs p with
    | some names =>
      let csvs := List.mergeSort (names.filter (fun n => n.endsWith ".csv"))
        (fun a b => a ≤ b)
      csvs.mapM (fun n => hash_file sha fsys.files (p ++ "/" ++ n))
    | none => pure []

/-- The `for p in paths` loop, concatenating per-path hash lists. -/
def collectPaths (sha : String → String) (fsys : FSys) :
    List String → Except String (List String)
  | [] => Except.ok []
  | p :: ps => do
    let h1 ← hashPath sha fsys p
    let h2 ← collectPaths sha fsys ps
    pure (h1 ++ h2)

/-- The `for input_key in consumes` loop over `path_map` entries
(`path_map.get(input_key, [])` returns `[]` for unknown keys, which
`pathMap` models directly). -/
def collectConsumes (sha : String → String) (fsys : FSys)
    (pathMap : String → List String) :
    List String → Except String (List String)
  | [] => Except.ok []
  | k :: ks => do
    let h1 ← collectPaths sha fsys (pathMap k)
    let h2 ← collectConsumes sha fsys pathMap ks
    pure (h1 ++ h2)

/-- `PipelineOrchestrator.get_input_hash`: stage name, then the stage
callable's source text when `inspect.getsource` succeeds (nothing
otherwise), then the consumed files' content hashes, then the
configuration rendering, all fed to `hash_strings`. -/
def get_input_hash (sha : String → String) (fsys : FSys) (stage : String)
    (srcText : Option String) (consumes : List String)
    (pathMap : String → List String) (configStr : String) :
    Except String String := do
  let hashes := stage :: (match srcText with | some s => [s] | none => [])
  let fileHashes ← collectConsumes sha fsys pathMap consumes
  pure (hash_strings sha (hashes ++ fileHashes ++ [configStr]))

/-- C7 counterexample: a consumed path that does not exist is silently
skipped by `get_input_hash` — the computation succeeds and returns
exactly the key it would return if the path were not expected at all, so
the missing input is treated as absent by design instead of failing. -/
theorem C7_counterexample :
    dictGet ([("data/other.csv", "x")] : FS) "data/raw_gs.csv" = none ∧
      get_input_hash (fun s => s) ⟨[("data/other.csv", "x")], []⟩
          "normalization" (some "srctext") ["raw_data"]
          (fun k => if k == "raw_data" then ["data/raw_gs.csv"] else [])
          "cfg" =
        get_input_hash (fun s => s) ⟨[("data/other.csv", "x")], []⟩
          "normalization" (some "srctext") ["raw_data"] (fun _ => []) "cfg" ∧
      (get_input_hash (fun s => s) ⟨[("data/other.csv", "x")], []⟩
          "normalization" (some "srctext") ["raw_data"]
          (fun k => if k == "raw_data" then ["data/raw_gs.csv"] else [])
          "cfg").isOk = true :=
  ⟨rfl, rfl, rfl⟩

/-- C7 (amended): `hash_file` on a missing file is fatal and propagates
(`FileNotFoundError`, uncaught); but `get_input_hash` only ever hashes
paths that currently exist — a consumed path that is neither a file nor a
directory contributes nothing to the cache key, exactly as if it were
absent by design. -/
theorem C7_missing_input_handling (sha : String → String) (fsys : FSys)
    (p : String) (hfile : dictGet fsys.files p = none)
    (hdir : dictGet fsys.dirs p = none) :
    hash_file sha fsys.files p = Except.error ("FileNotFoundError: " ++ p) ∧
      hashPath sha fsys p = Except.ok [] ∧
      ∀ stage srcText configStr k rest,
        get_input_hash sha fsys stage srcText [k]
            (fun k2 => if k2 == k then p :: rest else []) configStr =
          get_input_hash sha fsys stage srcText [k]
            (fun k2 => if k2 == k then rest else []) configStr := by
  have h1 : hash_file sha fsys.files p =
      Except.error ("FileNotFoundError: " ++ p) := by
    simp [hash_file, hfile]
  have h2 : hashPath sha fsys p = Except.ok [] := by
    simp [hashPath, hfile, hdir, pure, Except.pure]
  refine ⟨h1, h2, ?_⟩
  intro stage srcText configStr k rest
  simp [get_input_hash, collectConsumes, collectPaths, h2, Bind.bind,
    Except.bind]
  cases collectPaths sha fsys rest <;> rfl

/-- Witness for C7 at a concrete missing normalized-data path. -/
theorem C7_witness :
    hash_file (fun s => s) [("data/norm_bp.csv", "rows")] "data/missing.csv" =
        Except.error ("FileNotFoundError: " ++ "data/missing.csv") ∧
      hashPath (fun s => s) ⟨[("data/norm_bp.csv", "rows")], []⟩
          "data/missing.csv" = Except.ok [] ∧
      get_input_hash (fun s => s) ⟨[("data/norm_bp.csv", "rows")], []⟩
          "validation" (some "src") ["normalized_data"]
          (fun k2 => if k2 == "normalized_data" then ["data/missing.csv"]
            else []) "cfg" =
        get_input_hash (fun s => s) ⟨[("data/norm_bp.csv", "rows")], []⟩
          "validation" (some "src") ["normalized_data"]
          (fun k2 => if k2 == "normalized_data" then [] else []) "cfg" := by
  have h := C7_missing_input_handling (fun s => s)
    ⟨[("data/norm_bp.csv", "rows")], []⟩ "data/missing.csv" rfl rfl
  exact ⟨h.1, h.2.1, h.2.2 "validation" (some "src") "cfg" "normalized_data" []⟩

/-! ## Artifact-registry versioning

`SQLiteArtifactRegistry.next_version` (src/pipeline/registry_sqlite.py)
operates on the version strings returned for the id; the embedding takes
that list directly.  `ArtifactRegistry.next_version`
(src/pipeline/registry_json.py) reads the versions dict of
`self._data["artifacts"][artifact_id]`. -/

/-- Python `v.startswith("v")` (stated on the character list so the
kernel can evaluate it; the built-in `String.startsWith` does not
reduce). -/
def startsWithV (s : String) : Bool := s.toList.head? == some 'v'

/-- Value of an all-digits character sequence (what Python `int` computes
once the input is validated). -/
def digitCharsToNat (cs : List Char) : Nat :=
  cs.foldl (fun a c => a * 10 + (c.toNat - 48)) 0

/-- `SQLiteArtifactRegistry.next_version` on the version strings stored
for the id: `"v1"` when none, else `"v" + (max parsed + 1)`, where the
loop keeps only strings of the shape `v` + digits
(`v_str.startswith("v") and v_str[1:].isdigit()`). -/
def next_version_sqlite (versions : List String) : String :=
  if versions.isEmpty then "v1"
  else
    let max_v := versions.foldl
      (fun m v =>
        let rest := v.toList.drop 1
        if startsWithV v && !rest.isEmpty && rest.all Char.isDigit then
          let n := digitCharsToNat rest
          if n > m then n else m
        else m) 0
    "v" ++ toString (max_v + 1)

/-- Python `int(str)` on a character sequence: optional surrounding
spaces, optional sign, then at least one digit; anything else raises
`ValueError` (`none`). -/
def parsePyInt (cs : List Char) : Option Int :=
  let t := ((cs.dropWhile (fun c => c == ' ')).reverse.dropWhile
    (fun c => c == ' ')).reverse
  match t with
  | '-' :: rest =>
    if !rest.isEmpty && rest.all Char.isDigit then
      some (-(digitCharsToNat rest : Int))
    else none
  | '+' :: rest =>
    if !rest.isEmpty && rest.all Char.isDigit then
      some (digitCharsToNat rest : Int)
    else none
  | _ =>
    if !t.isEmpty && t.all Char.isDigit then
      some (digitCharsToNat t : Int)
    else none

/-- `ArtifactRegistry.next_version` of the JSON registry:
`[int(v[1:]) for v in versions if v.startswith("v")]`, then
`max(nums) + 1`.  The comprehension calls `int` on every entry that
starts with `"v"`, so a non-numeric remainder raises `ValueError`,
modelled as `none`. -/
def next_version_json (artifacts : List (String × List String))
    (artifact_id : String) : Option String :=
  match dictGet artifacts artifact_id with
  | none => some "v1"
  | some versions =>
    let parsed := (versions.filter startsWithV).map
      (fun v => parsePyInt (v.toList.drop 1))
    if parsed.any (fun o => o.isNone) then none
    else
      match parsed.filterMap id with
      | [] => some "v1"
      | n :: rest =>
        some ("v" ++ toString (rest.foldl (fun a b => if a < b then b else a) n + 1))

/-- C6: `next_version` behaviour of both registries.  The SQLite registry
returns `"v1"` with no versions, `"v2"` right after `"v1"`, and skips
every malformed version string.  The JSON registry also returns `"v1"`
for an unknown id and `"v2"` after `"v1"`, and ignores strings without
the `"v"` prefix — but a version like `"vfinal"` passes its filter and
makes `int("final")` raise `ValueError` instead of being ignored,
contradicting the claim (and the function's own docstring, which promises
`"v1"` when no version matches the `vN` pattern). -/
theorem C6_next_version_behavior (artifact_id : String) :
    next_version_sqlite [] = "v1" ∧
      next_version_sqlite ["v1"] = "v2" ∧
      next_version_sqlite ["v1", "beta", "vfinal", "v"] = "v2" ∧
      next_version_json [] artifact_id = some "v1" ∧
      next_version_json [(artifact_id, ["v1"])] artifact_id = some "v2" ∧
      next_version_json [(artifact_id, ["v1", "beta"])] artifact_id =
        some "v2" ∧
      next_version_json [(artifact_id, ["vfinal"])] artifact_id = none := by
  have hg : ∀ vs : List String,
      dictGet [(artifact_id, vs)] artifact_id = some vs := by
    intro vs
    simp [dictGet, List.find?]
  refine ⟨by decide, by decide, by decide, rfl, ?_, ?_, ?_⟩ <;>
    · unfold next_version_json
      rw [hg]
      decide

/-! ## Ingestion runner (src/ingestion/runner.py)

`IngestionRunner.run` iterates its sources; each source's
`connect/fetch/normalize/store` lifecycle is collapsed into one behaviour
function from the filesystem to the updated filesystem plus either the
list of stored temp paths or the text of the exception it raised.  On any
failure the runner unlinks every path collected so far and raises
`RuntimeError(f"Ingestion Stage Failed. Rolled back {n} files.") from e`;
the raised error is modelled as the pair (message, cause).  The
`source_name` only reaches the log, never the raised error — which is
what C5 turns on. -/

structure Source where
  name : String
  behavior : FS → FS × Except String (List String)

/-- The rollback loop: `for p in all_temp_paths: p.unlink()`. -/
def removePaths (fs : FS) : List String → FS
  | [] => fs
  | p :: ps => removePaths (dictRemove fs p) ps

/-- The `for source in self.sources` loop with the surrounding
`try/except`; `acc` is `all_temp_paths`. -/
def ingRunAux : List Source → FS → List String →
    FS × Except (String × String) (List String)
  | [], fs, acc => (fs, Except.ok acc)
  | s :: rest, fs, acc =>
    match s.behavior fs with
    | (fs2, Except.ok newPaths) => ingRunAux rest fs2 (acc ++ newPaths)
    | (fs2, Except.error e) =>
      (removePaths fs2 acc,
        Except.error ("Ingestion Stage Failed. Rolled back " ++
          toString acc.length ++ " files.", e))

/-- `IngestionRunner.run`. -/
def IngestionRunner_run (sources : List Source) (fs : FS) :
    FS × Except (String × String) (List String) :=
  ingRunAux sources fs []

/-- A succeeding Google-Sheets-like source storing two temp files. -/
def srcGoogleSheets : Source :=
  ⟨"GoogleSheetsSource", fun fs =>
    (dictSet (dictSet fs "data/raw/gs_bp.csv.a1b2.tmp" "rows1")
        "data/raw/gs_hr.csv.c3d4.tmp" "rows2",
      Except.ok ["data/raw/gs_bp.csv.a1b2.tmp", "data/raw/gs_hr.csv.c3d4.tmp"])⟩

/-- A failing Mi-Band-like source. -/
def srcMiBandFail : Source :=
  ⟨"MiBandDriveSource", fun fs =>
    (fs, Except.error "ConnectionError: drive timeout")⟩

/-- A failing source with a different class name but the same error. -/
def srcOtherFail : Source :=
  ⟨"GoogleDriveSource", fun fs =>
    (fs, Except.error "ConnectionError: drive timeout")⟩

lemma dictGet_remove_self {α : Type} (m : List (String × α)) (k : String) :
    dictGet (dictRemove m k) k = none := by
  induction m with
  | nil => rfl
  | cons p rest ih =>
    obtain ⟨k0, v0⟩ := p
    rw [dictRemove_cons]
    by_cases h : k0 = k
    · rw [if_pos h]; exact ih
    · rw [if_neg h, dictGet_cons, if_neg h]; exact ih

lemma dictGet_remove_none {α : Type} (m : List (String × α)) (k k2 : String)
    (h : dictGet m k = none) : dictGet (dictRemove m k2) k = none := by
  by_cases hk : k2 = k
  · subst hk; exact dictGet_remove_self m k2
  · rw [dictGet_remove_ne m k k2 hk]; exact h

lemma removePaths_none (ps : List String) :
    ∀ (fs : FS) (p : String), dictGet fs p = none →
      dictGet (removePaths fs ps) p = none := by
  induction ps with
  | nil => intro fs p h; exact h
  | cons q ps ih =>
    intro fs p h
    exact ih (dictRemove fs q) p (dictGet_remove_none fs p q h)

lemma removePaths_mem_none (ps : List String) :
    ∀ (fs : FS) (p : String), p ∈ ps →
      dictGet (removePaths fs ps) p = none := by
  induction ps with
  | nil => intro fs p h; exact absurd h (List.not_mem_nil p)
  | cons q ps ih =>
    intro fs p h
    rcases List.mem_cons.mp h with h | h
    · subst h
      exact removePaths_none ps (dictRemove fs p) p (dictGet_remove_self fs p)
    · exact ih (dictRemove fs q) p h

/-- C5 counterexample: source A succeeds with 2 temp files and source B
fails.  Both of A's files are indeed deleted, but the raised aggregate
error is the constant `"Ingestion Stage Failed. Rolled back 2 files."`
(with the original exception as cause): it does not name the failing
source — swapping in a failing source of a different name yields the
identical raised error, and the failing class name is not a substring of
the message. -/
theorem C5_counterexample :
    (IngestionRunner_run [srcGoogleSheets, srcMiBandFail] []).2 =
        Except.error ("Ingestion Stage Failed. Rolled back 2 files.",
          "ConnectionError: drive timeout") ∧
      (IngestionRunner_run [srcGoogleSheets, srcMiBandFail] []).2 =
        (IngestionRunner_run [srcGoogleSheets, srcOtherFail] []).2 ∧
      ¬ ("MiBandDriveSource".toList <:+:
          "Ingestion Stage Failed. Rolled back 2 files.".toList) ∧
      dictGet (IngestionRunner_run [srcGoogleSheets, srcMiBandFail] []).1
          "data/raw/gs_bp.csv.a1b2.tmp" = none ∧
      dictGet (IngestionRunner_run [srcGoogleSheets, srcMiBandFail] []).1
          "data/raw/gs_hr.csv.c3d4.tmp" = none := by
  refine ⟨rfl, rfl, by decide, by decide, by decide⟩

/-- C5 (amended): when a source fails mid-batch, the runner deletes every
temp file collected from the sources that succeeded and re-raises one
aggregate `RuntimeError` whose message reports the rolled-back file
count, chaining the original exception as its cause; the failing source's
name goes only to the log, not into the raised error. -/
theorem C5_strict_rollback (srcA srcB : Source) (fs fsA : FS)
    (pathsA : List String) (errB : String)
    (hA : srcA.behavior fs = (fsA, Except.ok pathsA))
    (hB : ∀ g : FS, (srcB.behavior g).2 = Except.error errB) :
    ∃ fsOut : FS,
      IngestionRunner_run [srcA, srcB] fs =
        (fsOut, Except.error ("Ingestion Stage Failed. Rolled back " ++
          toString pathsA.length ++ " files.", errB)) ∧
      ∀ p ∈ pathsA, dictGet fsOut p = none := by
  have hb := hB fsA
  cases hbeq : srcB.behavior fsA with
  | mk fsB e =>
    rw [hbeq] at hb
    simp only at hb
    subst hb
    refine ⟨removePaths fsB pathsA, ?_,
      fun p hp => removePaths_mem_none pathsA fsB p hp⟩
    simp [IngestionRunner_run, ingRunAux, hA, hbeq]

/-- Witness for C5: the concrete two-source batch. -/
theorem C5_witness :
    srcGoogleSheets.behavior [] =
        (dictSet (dictSet [] "data/raw/gs_bp.csv.a1b2.tmp" "rows1")
          "data/raw/gs_hr.csv.c3d4.tmp" "rows2",
          Except.ok ["data/raw/gs_bp.csv.a1b2.tmp",
            "data/raw/gs_hr.csv.c3d4.tmp"]) ∧
      ∃ fsOut : FS,
        IngestionRunner_run [srcGoogleSheets, srcMiBandFail] [] =
          (fsOut, Except.error ("Ingestion Stage Failed. Rolled back " ++
            toString (["data/raw/gs_bp.csv.a1b2.tmp",
              "data/raw/gs_hr.csv.c3d4.tmp"] : List String).length ++
            " files.", "ConnectionError: drive timeout")) ∧
        ∀ p ∈ (["data/raw/gs_bp.csv.a1b2.tmp",
            "data/raw/gs_hr.csv.c3d4.tmp"] : List String),
          dictGet fsOut p = none :=
  ⟨rfl, C5_strict_rollback srcGoogleSheets srcMiBandFail [] _ _ _ rfl
    (fun _ => rfl)⟩

/-! ## Orchestrator run loop (src/pipeline/orchestrator.py)

`PipelineOrchestrator.run` iterates the topologically sorted stages: skip
`ingestion` on request, compute the cache key, consult
`get_by_input_hash`, skip on a verified cache hit, otherwise invoke the
stage callable and register its outputs; on an exception it logs and, if
`resume` is off, breaks out of the loop.  Notably, `orchestrator.py`
never imports or touches `PipelineState`: the world carries a `runState`
document precisely to record that the loop leaves it untouched.  The
Python `break` is modelled by the `Bool` continue-flag returned by the
per-stage step.  `inspect`-and-file-content hashing (`get_input_hash`)
and `hash_file` are abstracted as the `inputHash`/`contentHash`
parameters of the environment, applied to the current filesystem. -/

structure ArtifactRow where
  id : String
  version : String
  content_hash : String
  path : String
  inputs : List String
  createdAt : Nat
deriving DecidableEq

/-- `get_by_input_hash`: the most recently created row whose `inputs`
list contains the hash (`inputs LIKE '%"hash"%' ORDER BY created_at DESC
LIMIT 1`; ties broken by first match, which SQLite leaves
unspecified). -/
def get_by_input_hash (rows : List ArtifactRow) (h : String) :
    Option ArtifactRow :=
  (rows.filter (fun r => r.inputs.contains h)).foldl
    (fun acc r =>
      match acc with
      | none => some r
      | some b => if r.createdAt > b.createdAt then some r else some b) none

/-- `register`: `INSERT OR REPLACE` keyed on `(id, version)`. -/
def registerRow (rows : List ArtifactRow) (r : ArtifactRow) :
    List ArtifactRow :=
  (rows.filter (fun q => !(q.id == r.id && q.version == r.version))) ++ [r]

/-- The version strings stored for an id (`SELECT version FROM artifacts
WHERE id = ?`). -/
def versionsOf (rows : List ArtifactRow) (artifact_id : String) :
    List String :=
  (rows.filter (fun r => r.id == artifact_id)).map (fun r => r.version)

/-- The final path component. -/
def lastComponent (p : String) : String :=
  String.mk ((p.toList.reverse.takeWhile (fun c => !(c == '/'))).reverse)

/-- `Path.stem`: final component without its suffix. -/
def stem (p : String) : String :=
  match dropSuffixRevAux (lastComponent p).toList.reverse with
  | some rest => String.mk rest.reverse
  | none => lastComponent p

/-- One DAG node as the orchestrator reads it; the stage callable is a
filesystem transformer that may raise. -/
structure OrchNode where
  depends_on : List String
  produces : List String
  consumes : List String
  fn : FS → Except String FS

/-- The orchestrator's environment: the DAG literal, the cache-key
computation (`get_input_hash` applied to the current filesystem), the
content hash of an existing file (`hash_file`), and the `output_map`
config literal of `register_output`. -/
structure OrchEnv where
  dag : List (String × OrchNode)
  inputHash : String → FS → String
  contentHash : FS → String → String
  outputMap : String → List String

/-- Mutable run state threaded through the loop.  `runState` is the
persisted `PipelineState` document; `invoked` records which stage
callables were actually called; `clock` orders registrations
(`created_at`). -/
structure World where
  fs : FS
  registry : List ArtifactRow
  runState : StateDoc
  invoked : List String
  clock : Nat

/-- `register_output`: for every produced key, for every mapped path that
exists, compute the content hash, pick `next_version`, and register an
artifact whose `inputs` is `[input_hash]`.  Only the registry (and the
creation clock) change. -/
def register_output (env : OrchEnv) (stage : String) (produces : List String)
    (input_hash : String) (fs : FS) (rc : List ArtifactRow × Nat) :
    List ArtifactRow × Nat :=
  produces.foldl (fun rc1 prodKey =>
    (env.outputMap prodKey).foldl (fun rc2 p =>
      if (dictGet fs p).isSome then
        let art_id := stage ++ "_" ++ stem p
        let row : ArtifactRow :=
          ⟨art_id, next_version_sqlite (versionsOf rc2.1 art_id),
            env.contentHash fs p, p, [input_hash], rc2.2⟩
        (registerRow rc2.1 row, rc2.2 + 1)
      else rc2) rc1) rc

/-- One iteration of the stage loop.  Returns the new world and the
continue flag (`false` models `break`).  Branches, in source order:
the `skip_ingestion` skip; the cache-hit check with its
file-still-exists guard; the `try` block invoking the callable and
registering outputs; the `except` block that breaks unless `resume`. -/
def runStage1 (env : OrchEnv) (resume skipIngestion : Bool) (stage : String)
    (w : World) : World × Bool :=
  if skipIngestion && stage == "ingestion" then (w, true)
  else
    match dictGet env.dag stage with
    | none => (w, false)
    | some node =>
      let input_hash := env.inputHash stage w.fs
      let hit :=
        match get_by_input_hash w.registry input_hash with
        | some art => (dictGet w.fs art.path).isSome
        | none => false
      if hit then (w, true)
      else
        match node.fn w.fs with
        | Except.ok fs2 =>
          let rc := register_output env stage node.produces input_hash fs2
            (w.registry, w.clock)
          let w2 : World :=
            { fs := fs2, registry := rc.1, runState := w.runState,
              invoked := w.invoked ++ [stage], clock := rc.2 }
          (w2, true)
        | Except.error _ =>
          ({ w with invoked := w.invoked ++ [stage] }, resume)

/-- The `for stage_name in order` loop of `PipelineOrchestrator.run`. -/
def runStages (env : OrchEnv) (resume skipIngestion : Bool) :
    List String → World → World
  | [], w => w
  | stage :: rest, w =>
    let step := runStage1 env resume skipIngestion stage w
    if step.2 then runStages env resume skipIngestion rest step.1 else step.1

/-- `PipelineOrchestrator.run`: topo-sort the DAG (a failure is logged
and the run returns untouched), then execute the stage loop. -/
def PipelineOrchestrator_run (env : OrchEnv) (resume skipIngestion : Bool)
    (fuel : Nat) (w : World) : World :=
  match topo_sort (env.dag.map (fun p => (p.1, p.2.depends_on))) fuel with
  | none => w
  | some order => runStages env resume skipIngestion order w

lemma runStage1_runState (env : OrchEnv) (resume skipIngestion : Bool)
    (stage : String) (w : World) :
    ((runStage1 env resume skipIngestion stage w).1).runState = w.runState := by
  unfold runStage1
  by_cases h1 : (skipIngestion && stage == "ingestion") = true
  · rw [if_pos h1]
  · rw [if_neg h1]
    cases dictGet env.dag stage with
    | none => rfl
    | some node =>
      dsimp only
      split
      · rfl
      · split <;> rfl

lemma runStages_runState (env : OrchEnv) (resume skipIngestion : Bool) :
    ∀ (l : List String) (w : World),
      (runStages env resume skipIngestion l w).runState = w.runState := by
  intro l
  induction l with
  | nil => intro w; rfl
  | cons stage rest ih =>
    intro w
    simp only [runStages]
    split
    · rw [ih]
      exact runStage1_runState env resume skipIngestion stage w
    · exact runStage1_runState env resume skipIngestion stage w

lemma runStage1_invoked_mono (env : OrchEnv) (resume skipIngestion : Bool)
    (stage : String) (w : World) :
    ∃ ext, ((runStage1 env resume skipIngestion stage w).1).invoked =
      w.invoked ++ ext := by
  unfold runStage1
  by_cases h1 : (skipIngestion && stage == "ingestion") = true
  · rw [if_pos h1]; exact ⟨[], by simp⟩
  · rw [if_neg h1]
    cases dictGet env.dag stage with
    | none => exact ⟨[], by simp⟩
    | some node =>
      dsimp only
      split
      · exact ⟨[], by simp⟩
      · split
        · exact ⟨[stage], rfl⟩
        · exact ⟨[stage], rfl⟩

lemma runStages_invoked_mono (env : OrchEnv) (resume skipIngestion : Bool) :
    ∀ (l : List String) (w : World),
      ∃ ext, (runStages env resume skipIngestion l w).invoked =
        w.invoked ++ ext := by
  intro l
  induction l with
  | nil => intro w; exact ⟨[], by simp [runStages]⟩
  | cons stage rest ih =>
    intro w
    obtain ⟨e1, he1⟩ := runStage1_invoked_mono env resume skipIngestion stage w
    simp only [runStages]
    split
    · obtain ⟨e2, he2⟩ :=
        ih ((runStage1 env resume skipIngestion stage w).1)
      exact ⟨e1 ++ e2, by rw [he2, he1, List.append_assoc]⟩
    · exact ⟨e1, he1⟩

/-- C1 (amended): on a registered cache-key match, if the backing file
exists the orchestrator skips the stage entirely — the callable is not
invoked and the world (including the RunState document) is untouched; if
the backing file is missing it falls through and executes the stage.  In
neither case does it write to RunState: `orchestrator.py` never touches
`PipelineState`, so no stage is ever marked `passed` there. -/
theorem C1_cache_hit_behavior (env : OrchEnv) (resume skipIngestion : Bool)
    (stage : String) (rest : List String) (w : World) (node : OrchNode)
    (art : ArtifactRow)
    (hskip : (skipIngestion && stage == "ingestion") = false)
    (hnode : dictGet env.dag stage = some node)
    (hart : get_by_input_hash w.registry (env.inputHash stage w.fs) =
      some art) :
    ((dictGet w.fs art.path).isSome →
      runStages env resume skipIngestion (stage :: rest) w =
        runStages env resume skipIngestion rest w) ∧
    (dictGet w.fs art.path = none →
      stage ∈ (runStages env resume skipIngestion (stage :: rest) w).invoked) ∧
    (runStages env resume skipIngestion (stage :: rest) w).runState =
      w.runState := by
  refine ⟨?_, ?_, runStages_runState env resume skipIngestion _ w⟩
  · intro hex
    have hstep : runStage1 env resume skipIngestion stage w = (w, true) := by
      simp [runStage1, hskip, hnode, hart, hex]
    simp [runStages, hstep]
  · intro hmiss
    have hinv : ((runStage1 env resume skipIngestion stage w).1).invoked =
        w.invoked ++ [stage] := by
      simp only [runStage1, hskip, hnode, hart, hmiss]
      simp only [Bool.false_eq_true, if_false, Option.isSome_none]
      split <;> rfl
    obtain ⟨e2, he2⟩ := runStages_invoked_mono env resume skipIngestion rest
      ((runStage1 env resume skipIngestion stage w).1)
    simp only [runStages]
    split
    · rw [he2, hinv]
      simp
    · rw [hinv]
      simp

/-- C9 (amended): when a stage callable raises, nothing is recorded in
RunState (the orchestrator never touches `PipelineState`); with resume
disabled the loop breaks, leaving the later stages unprocessed; with
resume enabled it continues to all later stages unconditionally, with no
check that the failed stage's dependents have their dependencies
`passed`. -/
theorem C9_failure_behavior (env : OrchEnv) (resume skipIngestion : Bool)
    (stage : String) (rest : List String) (w : World) (node : OrchNode)
    (e : String)
    (hskip : (skipIngestion && stage == "ingestion") = false)
    (hnode : dictGet env.dag stage = some node)
    (hnohit : get_by_input_hash w.registry (env.inputHash stage w.fs) = none)
    (hfail : node.fn w.fs = Except.error e) :
    (runStages env resume skipIngestion (stage :: rest) w).runState =
        w.runState ∧
    (resume = false →
      runStages env resume skipIngestion (stage :: rest) w =
        { w with invoked := w.invoked ++ [stage] }) ∧
    (resume = true →
      runStages env resume skipIngestion (stage :: rest) w =
        runStages env resume skipIngestion rest
          { w with invoked := w.invoked ++ [stage] }) := by
  have hstep : runStage1 env resume skipIngestion stage w =
      ({ w with invoked := w.invoked ++ [stage] }, resume) := by
    simp [runStage1, hskip, hnode, hnohit, hfail]
  refine ⟨runStages_runState env resume skipIngestion _ w, ?_, ?_⟩
  · intro hres
    subst hres
    simp [runStages, hstep]
  · intro hres
    subst hres
    simp [runStages, hstep]

/-- The normalization node whose cache entry the C1 scenario hits. -/
def exNodeNorm : OrchNode :=
  ⟨[], ["normalized_data"], ["raw_data"], fun fs => Except.ok fs⟩

/-- Environment with one stage and a constant cache key. -/
def exEnvC1 : OrchEnv :=
  ⟨[("normalization", exNodeNorm)], fun _ _ => "K1", fun _ _ => "H1",
    fun _ => []⟩

/-- A registered artifact carrying the matching input hash. -/
def exRowC1 : ArtifactRow :=
  ⟨"normalization_norm_bp", "v1", "H1", "data/processed/norm_bp.csv",
    ["K1"], 0⟩

/-- Starting world for the C1 scenario: backing file on disk, empty
run-state document. -/
def exWorldC1 : World :=
  ⟨[("data/processed/norm_bp.csv", "rows")], [exRowC1], [], [], 1⟩

/-- C1 counterexample: the cache hit does skip the callable (nothing is
invoked), but the stage is NOT marked `passed` in RunState — after the
run its status is still `pending`.  The half of the claim about
`mark_passed` does not happen in `PipelineOrchestrator.run`. -/
theorem C1_counterexample :
    (runStages exEnvC1 false false ["normalization"] exWorldC1).invoked =
        [] ∧
      get_status
          (runStages exEnvC1 false false ["normalization"] exWorldC1).runState
          "normalization" = STATUS_PENDING ∧
      STATUS_PENDING ≠ STATUS_PASSED := by
  refine ⟨by decide, by decide, by decide⟩

/-- Witness for C1: the amended theorem applied to the concrete cache-hit
scenario. -/
theorem C1_witness :
    runStages exEnvC1 false false ["normalization"] exWorldC1 =
        runStages exEnvC1 false false [] exWorldC1 ∧
      (runStages exEnvC1 false false ["normalization"] exWorldC1).runState =
        exWorldC1.runState := by
  have h := C1_cache_hit_behavior exEnvC1 false false "normalization" []
    exWorldC1 exNodeNorm exRowC1 rfl rfl rfl
  exact ⟨h.1 (by decide), h.2.2⟩

/-- A stage whose callable raises. -/
def exNodeA : OrchNode := ⟨[], [], [], fun _ => Except.error "boom"⟩

/-- A stage depending on the failing one. -/
def exNodeB : OrchNode := ⟨["a"], [], [], fun fs => Except.ok fs⟩

/-- Environment for the C9 scenario. -/
def exEnvC9 : OrchEnv :=
  ⟨[("a", exNodeA), ("b", exNodeB)], fun s _ => s ++ "-key", fun _ _ => "H",
    fun _ => []⟩

/-- Empty starting world for the C9 scenario. -/
def exWorldC9 : World := ⟨[], [], [], [], 0⟩

/-- C9 counterexample: stage `a` fails.  `a` is never marked `failed` in
RunState (its status stays `pending`), and in resume mode stage `b` is
executed even though its dependency `a` did not pass; with resume off the
loop does abort after `a`. -/
theorem C9_counterexample :
    (runStages exEnvC9 true false ["a", "b"] exWorldC9).invoked =
        ["a", "b"] ∧
      get_status (runStages exEnvC9 true false ["a", "b"] exWorldC9).runState
          "a" = STATUS_PENDING ∧
      is_done (runStages exEnvC9 true false ["a", "b"] exWorldC9).runState
          "a" = false ∧
      (runStages exEnvC9 false false ["a", "b"] exWorldC9).invoked = ["a"] := by
  refine ⟨by decide, by decide, by decide, by decide⟩

/-- Witness for C9: the amended theorem applied to the concrete failing
stage with resume off. -/
theorem C9_witness :
    (runStages exEnvC9 false false ["a", "b"] exWorldC9).runState =
        exWorldC9.runState ∧
      runStages exEnvC9 false false ["a", "b"] exWorldC9 =
        { exWorldC9 with invoked := exWorldC9.invoked ++ ["a"] } := by
  have h := C9_failure_behavior exEnvC9 false false "a" ["b"] exWorldC9
    exNodeA "boom" rfl rfl rfl rfl
  exact ⟨h.1, h.2.1 rfl⟩

end PDP
